import Mathlib

/-!
Verification of the analysis-glue toolkit (anatools): a shallow embedding of
the MM-PBSA report parser and converter, the bundle loader, and the series
aggregator, with the claims of the specification settled as theorems.

Strings are modelled as lists of characters.  Python floats are modelled
exactly: a successfully parsed token denotes either nan, a signed infinity,
or the exact value mantissa * 10 ^ exponent.  The filesystem is an
association list from paths to file data.  The delimited-text encoding and
the tabular container are external collaborators of the program and are
modelled from the specification where noted.
-/

/-! ## Character-level helpers (Python string primitives) -/

/-- The ASCII whitespace characters recognised by Python `str.split`,
`str.strip` and the regex class backslash-s. -/
def isPySpace (c : Char) : Bool :=
  decide (c = ' ' ∨ c = '\t' ∨ c = '\n' ∨ c = '\r' ∨ c = '\x0b' ∨ c = '\x0c')

/-- Decimal digit test, as used by float-token parsing. -/
def pyIsDigit (c : Char) : Bool := decide ('0' ≤ c) && decide (c ≤ '9')

/-- Python `str.strip()`: remove leading and trailing whitespace. -/
def pyStrip (s : List Char) : List Char :=
  ((s.dropWhile isPySpace).reverse.dropWhile isPySpace).reverse

/-- Worker for `pySplit`; `cur` holds the current word reversed. -/
def pySplitAux : List Char → List Char → List (List Char)
  | cur, [] => if cur = [] then [] else [cur.reverse]
  | cur, c :: r =>
    if isPySpace c then
      if cur = [] then pySplitAux [] r else cur.reverse :: pySplitAux [] r
    else pySplitAux (c :: cur) r

/-- Python `str.split()` with no argument: split on runs of whitespace,
discarding empty tokens. -/
def pySplit (s : List Char) : List (List Char) := pySplitAux [] s

/-- Python `str.split(chr(10))`: split on every newline, keeping empty
segments (an empty input gives one empty segment). -/
def splitNl : List Char → List (List Char)
  | [] => [[]]
  | c :: r =>
    if c = '\n' then [] :: splitNl r
    else
      match splitNl r with
      | s :: rest => (c :: s) :: rest
      | [] => [[c]]

/-- Case-sensitive test that `pat` matches the beginning of `s`. -/
def matchesAt : List Char → List Char → Bool
  | [], _ => true
  | _ :: _, [] => false
  | p :: ps, c :: cs => p == c && matchesAt ps cs

/-- Case-insensitive character equality via `Char.toLower`. -/
def ciEq (a b : Char) : Bool := a.toLower == b.toLower

/-- Case-insensitive test that `pat` matches the beginning of `s`. -/
def ciMatchesAt : List Char → List Char → Bool
  | [], _ => true
  | _ :: _, [] => false
  | p :: ps, c :: cs => ciEq p c && ciMatchesAt ps cs

/-- Python substring containment `pat in s` (case-sensitive). -/
def containsSub (pat : List Char) : List Char → Bool
  | [] => matchesAt pat []
  | c :: r => matchesAt pat (c :: r) || containsSub pat r

/-- Length of the run of dash characters at the head of the list. -/
def dashRun : List Char → Nat
  | '-' :: r => dashRun r + 1
  | _ => 0

/-- Length of the run of non-whitespace characters at the head of the list
(the regex atom backslash-S-plus is a maximal such run). -/
def nonspaceRun : List Char → Nat
  | [] => 0
  | c :: r => if isPySpace c then 0 else nonspaceRun r + 1

/-! ## Python float tokens, modelled exactly -/

/-- The value of a Python float token: nan, a signed infinity, or the exact
rational mantissa * 10 ^ exponent.  Rounding to binary is not modelled; the
claims concern which tokens parse and how values survive the round trip. -/
inductive PyFloat where
  | nan : PyFloat
  | inf : Bool → PyFloat
  | fin : Int → Int → PyFloat
deriving DecidableEq

/-- Decimal value of a digit string, most significant first. -/
def digitsToNat (ds : List Char) : Nat :=
  ds.foldl (fun a c => 10 * a + (c.toNat - 48)) 0

/-- Decimal digits of a natural number, most significant first. -/
def natToDigits (n : Nat) : List Char :=
  if h : n < 10 then [Char.ofNat (48 + n)]
  else natToDigits (n / 10) ++ [Char.ofNat (48 + n % 10)]
termination_by n
decreasing_by exact Nat.div_lt_self (by omega) (by omega)

/-- Split off the maximal run of decimal digits at the head. -/
def spanDigits : List Char → List Char × List Char
  | [] => ([], [])
  | c :: r =>
    if pyIsDigit c then
      match spanDigits r with
      | (a, b) => (c :: a, b)
    else ([], c :: r)

/-- Consume one optional sign character; `true` means negative. -/
def readSign (s : List Char) : Bool × List Char :=
  match s with
  | [] => (false, [])
  | c :: r => if c = '-' then (true, r) else if c = '+' then (false, r) else (false, s)

/-- Assemble the exact value of a parsed decimal token from its sign, integer
digits, fraction digits, exponent sign and exponent digits. -/
def mkFin (neg : Bool) (ds1 ds2 : List Char) (eneg : Bool) (ds3 : List Char) : PyFloat :=
  let m : Int := (digitsToNat (ds1 ++ ds2) : Int)
  let mv : Int := if neg then -m else m
  let ex : Int := (if eneg then -(digitsToNat ds3 : Int) else (digitsToNat ds3 : Int)) - ds2.length
  .fin mv ex

/-- Split an optional fraction part: a dot followed by digits. -/
def fracSplit (s : List Char) : List Char × List Char :=
  match s with
  | [] => ([], [])
  | c :: r => if c = '.' then spanDigits r else ([], s)

/-- The decimal-literal part of float parsing, after the sign and the
special words have been handled: integer digits, optional fraction,
optional exponent, nothing left over. -/
def pyFloatCore (neg : Bool) (s : List Char) : Option PyFloat :=
  let d1 := spanDigits s
  let fr := fracSplit d1.2
  if d1.1 = [] ∧ fr.1 = [] then none
  else
    match fr.2 with
    | [] => some (mkFin neg d1.1 fr.1 false [])
    | c :: r3 =>
      if c = 'e' ∨ c = 'E' then
        let es := readSign r3
        let d3 := spanDigits es.2
        if d3.1 = [] ∨ d3.2 ≠ [] then none
        else some (mkFin neg d1.1 fr.1 es.1 d3.1)
      else none

/-- Python `float(tok)` on a token: optional surrounding whitespace, optional
sign, then `inf`, `infinity` or `nan` case-insensitively, or a decimal
literal with optional fraction and exponent.  Returns `none` where Python
raises `ValueError`.  (Digit-group underscores, a rarely used Python
extension, are not modelled.) -/
def pyFloat? (tok : List Char) : Option PyFloat :=
  let s := pyStrip tok
  let sg := readSign s
  let low := sg.2.map Char.toLower
  if low = "inf".toList ∨ low = "infinity".toList then some (.inf sg.1)
  else if low = "nan".toList then some .nan
  else pyFloatCore sg.1 sg.2

/-- Decimal digits of an integer, with a leading minus sign when negative. -/
def intToChars (m : Int) : List Char :=
  if m < 0 then '-' :: natToDigits m.natAbs else natToDigits m.natAbs

/-- Render a parsed float value as a token that parses back to the same
value, standing for the value-preserving decimal text Python writes for a
float (`repr`). -/
def floatRepr : PyFloat → List Char
  | .nan => "nan".toList
  | .inf true => "-inf".toList
  | .inf false => "inf".toList
  | .fin m e => intToChars m ++ 'e' :: intToChars e

/-! ## The report parser (`mmpbsa_to_csv`, parsing phase)

The section-discovery regex
`(newline|^)(Complex|Receptor|Ligand|Delta|\S+ Delta)[\s\S]*?(?:[-]{60,}\s*?)([\s\S]*?)(?=newline[-]{60,}|\Z)`
with MULTILINE and IGNORECASE is embedded as a deterministic scanner that
reproduces leftmost matching, the ordered alternation, the lazy and greedy
quantifiers and non-overlapping `finditer` continuation. -/

/-- One row of the parsed report. -/
structure Record where
  system : List Char
  component : List Char
  average : PyFloat
  sdProp : PyFloat
  sd : PyFloat
  semProp : PyFloat
  sem : PyFloat
deriving DecidableEq

/-- Try one literal label alternative, case-insensitively; on success return
the matched text (original casing) and the rest. -/
def tryLit (lbl : List Char) (s : List Char) : Option (List Char × List Char) :=
  if ciMatchesAt lbl s then some (s.take lbl.length, s.drop lbl.length) else none

/-- The `\S+ Delta` alternative: a maximal non-space run, then a space and
`Delta` case-insensitively.  Only the maximal run can be followed by the
literal space, so the greedy quantifier needs no backtracking here. -/
def tryWordDelta (s : List Char) : Option (List Char × List Char) :=
  let L := nonspaceRun s
  if 0 < L then
    if ciMatchesAt " Delta".toList (s.drop L) then
      some (s.take (L + 6), s.drop (L + 6))
    else none
  else none

/-- Group 2 of the pattern: the ordered alternation of the four system
labels and the generic word-Delta form. -/
def tryG2 (s : List Char) : Option (List Char × List Char) :=
  tryLit "Complex".toList s <|> tryLit "Receptor".toList s <|>
  tryLit "Ligand".toList s <|> tryLit "Delta".toList s <|> tryWordDelta s

/-- Advance to the first position where a run of at least 60 dashes starts;
this is where the lazy gap before `(?:[-]{60,})` stops. -/
def skipToRule : List Char → Option (List Char)
  | [] => none
  | c :: r => if 60 ≤ dashRun (c :: r) then some (c :: r) else skipToRule r

/-- Capture group 3 lazily: everything up to (and not including) the first
newline that is followed by a rule of at least 60 dashes, or to the end of
the input.  Returns the captured text and the remaining suffix. -/
def grabG3 : List Char → List Char × List Char
  | [] => ([], [])
  | c :: r =>
    if c = '\n' ∧ 60 ≤ dashRun r then ([], c :: r)
    else
      match grabG3 r with
      | (g, rem) => (c :: g, rem)

/-- After group 2: skip lazily to the next rule line, consume the greedy
dash run, and capture group 3.  Fails only when no rule follows, in which
case every later alternative of group 2 fails as well. -/
def tryBody (s : List Char) : Option (List Char × List Char) :=
  match skipToRule s with
  | none => none
  | some t => some (grabG3 (t.drop (dashRun t)))

/-- Attempt the whole pattern with the match beginning at this suffix:
group 2 then the delimited body.  Returns (group2, group3, rest). -/
def tryFrom (s : List Char) : Option (List Char × List Char × List Char) :=
  match tryG2 s with
  | none => none
  | some (g2, after) =>
    match tryBody after with
    | none => none
    | some (g3, rem) => some (g2, g3, rem)

/-- Attempt the pattern at a position: first the alternative consuming a
newline, then the zero-width line-start anchor (`atStart`).  When the head
is a newline the anchor alternative cannot match a label, so trying the
newline branch alone is faithful. -/
def tryMatch (atStart : Bool) (s : List Char) : Option (List Char × List Char × List Char) :=
  match s with
  | '\n' :: r => tryFrom r
  | _ => if atStart then tryFrom s else none

/-- The `finditer` scan: leftmost matches, continuing after each match.  The
fuel is an upper bound on the number of scan steps; every step consumes at
least one character, so `length + 1` always suffices. -/
def scanGo : Nat → Bool → List Char → List (List Char × List Char)
  | 0, _, _ => []
  | _, _, [] => []
  | Nat.succ fuel, atStart, c :: r =>
    match tryMatch atStart (c :: r) with
    | some (g2, g3, rem) =>
      let nb : Bool := g3.getLast? == some '\n'
      (g2, g3) :: scanGo fuel nb rem
    | none => scanGo fuel (c == '\n') r

/-- All (group2, group3) captures of the section pattern, in text order. -/
def findMatches (cs : List Char) : List (List Char × List Char) :=
  scanGo (cs.length + 1) true cs

/-- Python `split(chr(58))[0]`: the text before the first colon. -/
def beforeColon (s : List Char) : List Char := s.takeWhile (fun c => c != ':')

/-- Normalise a matched section label into the System value: any label text
containing the substring `Delta` (case-sensitively) becomes `Delta`,
otherwise the text before the first colon, stripped. -/
def systemName (pfx : List Char) : List Char :=
  if containsSub "Delta".toList pfx then "Delta".toList
  else pyStrip (beforeColon pfx)

/-- Tokens of a stripped line: split on whitespace, dropping empties (the
comprehension filter in the source). -/
def splitParts (l : List Char) : List (List Char) :=
  (pySplit l).filter (fun p => !p.isEmpty)

/-- Token-stage of one line: with at least six tokens and tokens 1 to 5 all
parsing as floats, build the record; otherwise skip the line. -/
def rowFromParts (sys : List Char) : List (List Char) → Option Record
  | c :: v1 :: v2 :: v3 :: v4 :: v5 :: _ =>
    match pyFloat? v1, pyFloat? v2, pyFloat? v3, pyFloat? v4, pyFloat? v5 with
    | some a, some b, some c2, some d, some e => some ⟨sys, c, a, b, c2, d, e⟩
    | _, _, _, _, _ => none
  | _ => none

/-- Process one line of a table body: strip, skip empty lines and lines
beginning with a dash, then tokenise. -/
def processLine (sys line : List Char) : Option Record :=
  let l := pyStrip line
  if l = [] then none
  else if l.head? = some '-' then none
  else rowFromParts sys (splitParts l)

/-- All records contributed by one matched section. -/
def sectionRecords (g2 g3 : List Char) : List Record :=
  let pfx := pyStrip g2
  let body := pyStrip g3
  (splitNl body).filterMap (processLine (systemName pfx))

/-- The report parser: every matched section in text order, each
contributing its qualifying data rows in order. -/
def parseReport (text : List Char) : List Record :=
  ((findMatches text).map (fun m => sectionRecords m.1 m.2)).flatten

/-! ## Filesystem, converter and reader -/

/-- Contents of a file in the modelled filesystem.  A delimited-text file is
kept as its rows of fields; the quoting and escaping of the delimited
encoding is an external collaborator, out of scope per the specification. -/
inductive FileData where
  | text : List Char → FileData
  | table : List (List (List Char)) → FileData
deriving DecidableEq

/-- The filesystem: an association list from paths to file data. -/
abbrev FS := List (List Char × FileData)

/-- Look a path up in the filesystem. -/
def fsLookup (p : List Char) : FS → Option FileData
  | [] => none
  | q :: r => if q.1 = p then some q.2 else fsLookup p r

/-- Write a file (later writes shadow earlier ones). -/
def fsWrite (fs : FS) (p : List Char) (d : FileData) : FS := (p, d) :: fs

/-- `os.path.splitext`: split off the extension at the last dot of the base
name, never inside the directory part and never at leading dots. -/
def splitExt (p : List Char) : List Char × List Char :=
  let rev := p.reverse
  let base := (rev.takeWhile (fun c => c != '/')).reverse
  let dir := (rev.dropWhile (fun c => c != '/')).reverse
  let dots := base.takeWhile (fun c => c == '.')
  let core := base.dropWhile (fun c => c == '.')
  let after := (core.reverse.takeWhile (fun c => c != '.')).length
  if after = core.length then (p, [])
  else
    (dir ++ dots ++ core.take (core.length - after - 1),
     core.drop (core.length - after - 1))

/-- The fixed seven-column header of the persisted delimited text. -/
def headerNames : List (List Char) :=
  ["System", "Energy_Component", "Average", "SD(Prop.)", "SD", "SEM(Prop.)", "SEM"].map
    String.toList

/-- One record as one row of fields, numeric values rendered as tokens. -/
def recToRow (r : Record) : List (List Char) :=
  [r.system, r.component, floatRepr r.average, floatRepr r.sdProp, floatRepr r.sd,
   floatRepr r.semProp, floatRepr r.sem]

/-- The rows written by the converter: header row then one row per record. -/
def csvRows (recs : List Record) : List (List (List Char)) :=
  headerNames :: recs.map recToRow

/-- Message returned when the input file is absent. -/
def errNotFound (p : List Char) : List Char :=
  "Error: Input file not found at path: ".toList ++ p

/-- `mmpbsa_to_csv`: read the report, parse it, and write the records as
delimited text next to the input with the extension replaced by `.csv`;
report a missing input as a message value, not a fault.  (The modelled
write always succeeds, so the write-error branch of the source is
unreachable here.)  Returns the updated filesystem and the outcome string. -/
def mmpbsa_to_csv (fs : FS) (input : List Char) : FS × List Char :=
  match fsLookup input fs with
  | none => (fs, errNotFound input)
  | some (.table _) => (fs, errNotFound input)
  | some (.text content) =>
    let recs := parseReport content
    let out := (splitExt input).1 ++ ".csv".toList
    (fsWrite fs out (.table (csvRows recs)),
     "Successfully parsed data and saved to CSV file: ".toList ++ out)

/-- Errors raised by the loaders. -/
inductive PyErr where
  | fileNotFound : PyErr
deriving DecidableEq

/-- `load_pickle`: open `path/filename` and deserialise it; a missing file
raises (propagates) the not-found error.  The opaque record store is
modelled by returning the stored file data. -/
def load_pickle (fs : FS) (path filename : List Char) : Except PyErr FileData :=
  match fsLookup (path ++ "/".toList ++ filename) fs with
  | none => .error .fileNotFound
  | some d => .ok d

/-- The conventional base name of the report file. -/
def defaultResultsName : List Char := "FINAL_RESULTS_MMPBSA".toList

/-- `convert_bfedat`: build `path/bfefname/fname + .dat` and run the
converter, discarding its outcome string; the Python function returns
`None`. -/
def convert_bfedat (fs : FS) (bfefname path fname : List Char) : FS × Unit :=
  let fpath := path ++ "/".toList ++ bfefname ++ "/".toList ++ fname
  ((mmpbsa_to_csv fs (fpath ++ ".dat".toList)).1, ())

/-- Parse one data row of the persisted table back into a record. -/
def rowToRecord (row : List (List Char)) : Option Record :=
  match row with
  | [s, comp, a, b, c, d, e] =>
    match pyFloat? a, pyFloat? b, pyFloat? c, pyFloat? d, pyFloat? e with
    | some a1, some b1, some c1, some d1, some e1 => some ⟨s, comp, a1, b1, c1, d1, e1⟩
    | _, _, _, _, _ => none
  | _ => none

/-- Map a partial function over a list, failing if any element fails. -/
def mapOption (f : α → Option β) : List α → Option (List β)
  | [] => some []
  | x :: r =>
    match f x with
    | none => none
    | some y =>
      match mapOption f r with
      | none => none
      | some ys => some (y :: ys)

/-- Modelled from the spec: the delimited-text reader (`pd.read_csv`) is an
external collaborator; per section 4.4 it loads the persisted file back as
a table with the same seven named columns, the five numeric columns coerced
to floating point. -/
def readTable (rows : List (List (List Char))) : Option (List Record) :=
  match rows with
  | [] => none
  | hdr :: body => if hdr = headerNames then mapOption rowToRecord body else none

/-- `load_bfedat`: read the previously converted table back from
`path/bfefname/fname + .csv`. -/
def load_bfedat (fs : FS) (bfefname path fname : List Char) : Option (List Record) :=
  match fsLookup (path ++ "/".toList ++ bfefname ++ "/".toList ++ fname ++ ".csv".toList) fs with
  | some (.table rows) => readTable rows
  | _ => none

/-! ## The series aggregator over the modelled tabular container

Modelled from the spec: the tabular container is an external collaborator
(sections 1, 3 and 6); a table is a list of labelled columns, column
selection picks the named columns, and concatenation along the column axis
aligns rows by index, padding shorter columns with missing cells. -/

/-- Errors of the aggregator pipeline. -/
inductive AnaErr where
  | keyMissing : AnaErr
  | colMissing : AnaErr
deriving DecidableEq

/-- Modelled from the spec: a table is a list of labelled columns whose
cells may be missing (the fill of the row-alignment join). -/
structure PdTable (α β : Type) where
  cols : List (α × List (Option β))
deriving DecidableEq

/-- A loaded bundle: a mapping from analysis key to sub-table. -/
abbrev Bundle (α β : Type) := List (String × PdTable α β)

/-- The column-selection argument: a single scalar label (yielding one
column) or a list of labels. -/
inductive ColKeys (α : Type) where
  | scalar : α → ColKeys α
  | list : List α → ColKeys α

/-- Look an analysis key up in a bundle. -/
def bfind : Bundle α β → String → Option (PdTable α β)
  | [], _ => none
  | p :: r, k => if p.1 = k then some p.2 else bfind r k

/-- Indexing a bundle; a missing key raises. -/
def bundleGet (b : Bundle α β) (k : String) : Except AnaErr (PdTable α β) :=
  match bfind b k with
  | none => .error .keyMissing
  | some t => .ok t

/-- Map a fallible function over a list, failing fast on the first error. -/
def mapME (f : α → Except ε β) : List α → Except ε (List β)
  | [] => .ok []
  | x :: r =>
    match f x with
    | .error e => .error e
    | .ok y =>
      match mapME f r with
      | .error e => .error e
      | .ok ys => .ok (y :: ys)

/-- `load_analysis`: the sub-table under `key` from each bundle, in order. -/
def load_analysis (key : String) (dfpickels : List (Bundle α β)) :
    Except AnaErr (List (PdTable α β)) :=
  mapME (fun b => bundleGet b key) dfpickels

/-- Find the column with the given label. -/
def findCol [DecidableEq α] (t : PdTable α β) (l : α) :
    Except AnaErr (α × List (Option β)) :=
  match t.cols.find? (fun p => decide (p.1 = l)) with
  | none => .error .colMissing
  | some c => .ok c

/-- Modelled from the spec: `.loc[:, colkeys]` selects the named columns; a
scalar label yields a single column (a series), a list yields one column
per label. -/
def locSelect [DecidableEq α] (t : PdTable α β) :
    ColKeys α → Except AnaErr (List (α × List (Option β)))
  | .scalar l =>
    match findCol t l with
    | .error e => .error e
    | .ok c => .ok [c]
  | .list ls => mapME (findCol t) ls

/-- Right-pad a column with missing cells up to the target length. -/
def padCells (n : Nat) (cs : List (Option β)) : List (Option β) :=
  cs ++ List.replicate (n - cs.length) none

/-- The longest column length of a column list. -/
def tableMaxLen (cols : List (α × List (Option β))) : Nat :=
  cols.foldr (fun p m => max p.2.length m) 0

/-- Modelled from the spec: `pd.concat(axis=1)` puts the selected column
lists side by side in order, aligning rows by index and padding shorter
columns with missing cells. -/
def pdConcat (sels : List (List (α × List (Option β)))) : PdTable α β :=
  let all := sels.flatten
  ⟨all.map (fun p => (p.1, padCells (tableMaxLen all) p.2))⟩

/-- `load_ana`: extract `key` from every bundle, select `colkeys` from each
sub-table, and concatenate the selections along the column axis. -/
def load_ana [DecidableEq α] (key : String) (dfpickels : List (Bundle α β))
    (colkeys : ColKeys α) : Except AnaErr (PdTable α β) :=
  match load_analysis key dfpickels with
  | .error e => .error e
  | .ok res =>
    match mapME (fun r => locSelect r colkeys) res with
    | .error e => .error e
    | .ok rez => .ok (pdConcat rez)

/-- `load_rmsd`: `load_ana` with key `rmsd` and the default scalar column
label 2. -/
def load_rmsd (dfpickels : List (Bundle Int β)) : Except AnaErr (PdTable Int β) :=
  load_ana "rmsd" dfpickels (.scalar 2)

/-- `load_rg`: `load_ana` with key `rg` and the default scalar label 2. -/
def load_rg (dfpickels : List (Bundle Int β)) : Except AnaErr (PdTable Int β) :=
  load_ana "rg" dfpickels (.scalar 2)

/-- `load_sasa`: `load_ana` with key `sasa` and the default scalar label 2. -/
def load_sasa (dfpickels : List (Bundle Int β)) : Except AnaErr (PdTable Int β) :=
  load_ana "sasa" dfpickels (.scalar 2)

/-- `load_hbond`: `load_ana` with key `hbond` and the default scalar label 2. -/
def load_hbond (dfpickels : List (Bundle Int β)) : Except AnaErr (PdTable Int β) :=
  load_ana "hbond" dfpickels (.scalar 2)

/-- The largest row count among a list of sub-tables. -/
def maxRows (subs : List (PdTable α β)) : Nat :=
  subs.foldr (fun t m => max (tableMaxLen t.cols) m) 0

/-! ## Lemmas: decimal digits and the float round trip -/

/-- The ten decimal digit characters. -/
def digitChars : List Char := "0123456789".toList

theorem ofNat_digit_mem {d : Nat} (h : d < 10) : Char.ofNat (48 + d) ∈ digitChars := by
  interval_cases d <;> decide

theorem toNat_ofNat_digit {d : Nat} (h : d < 10) : (Char.ofNat (48 + d)).toNat = 48 + d := by
  interval_cases d <;> decide

theorem digit_pyIsDigit {c : Char} (h : c ∈ digitChars) : pyIsDigit c = true := by
  fin_cases h <;> decide

theorem digit_not_space {c : Char} (h : c ∈ digitChars) : isPySpace c = false := by
  fin_cases h <;> decide

theorem digit_ne_dash {c : Char} (h : c ∈ digitChars) : c ≠ '-' := by
  fin_cases h <;> decide

theorem digit_ne_plus {c : Char} (h : c ∈ digitChars) : c ≠ '+' := by
  fin_cases h <;> decide

theorem digit_toLower {c : Char} (h : c ∈ digitChars) : Char.toLower c = c := by
  fin_cases h <;> decide

theorem digit_ne_i {c : Char} (h : c ∈ digitChars) : c ≠ 'i' := by
  fin_cases h <;> decide

theorem digit_ne_n {c : Char} (h : c ∈ digitChars) : c ≠ 'n' := by
  fin_cases h <;> decide

/-- `natToDigits` is a nonempty digit string that `digitsToNat` inverts. -/
theorem natToDigits_spec (n : Nat) :
    digitsToNat (natToDigits n) = n ∧ natToDigits n ≠ [] ∧
      ∀ c ∈ natToDigits n, c ∈ digitChars := by
  induction n using Nat.strong_induction_on with
  | _ n ih =>
    rw [natToDigits]
    by_cases h : n < 10
    · rw [dif_pos h]
      refine ⟨?_, by simp, ?_⟩
      · simp only [digitsToNat, List.foldl_cons, List.foldl_nil, toNat_ofNat_digit h]
        omega
      · intro c hc
        simp only [List.mem_singleton] at hc
        exact hc ▸ ofNat_digit_mem h
    · rw [dif_neg h]
      have hlt : n / 10 < n := Nat.div_lt_self (by omega) (by omega)
      obtain ⟨ihv, ihne, ihmem⟩ := ih (n / 10) hlt
      have hm : n % 10 < 10 := Nat.mod_lt _ (by omega)
      refine ⟨?_, by simp, ?_⟩
      · simp only [digitsToNat, List.foldl_append, List.foldl_cons, List.foldl_nil]
        simp only [digitsToNat] at ihv
        rw [ihv, toNat_ofNat_digit hm]
        omega
      · intro c hc
        rcases List.mem_append.mp hc with hc | hc
        · exact ihmem c hc
        · simp only [List.mem_singleton] at hc
          exact hc ▸ ofNat_digit_mem hm

theorem spanDigits_append {ds r : List Char}
    (hds : ∀ c ∈ ds, pyIsDigit c = true)
    (hr : ∀ c, r.head? = some c → pyIsDigit c = false) :
    spanDigits (ds ++ r) = (ds, r) := by
  induction ds with
  | nil =>
    cases r with
    | nil => rfl
    | cons c cr => simp [spanDigits, hr c rfl]
  | cons d dt ih =>
    have hd := hds d (by simp)
    have ih2 := ih (fun c hc => hds c (by simp [hc]))
    simp [spanDigits, hd, ih2]

theorem dropWhile_eq_self_of {p : Char → Bool} {l : List Char}
    (h : ∀ c ∈ l, p c = false) : l.dropWhile p = l := by
  cases l with
  | nil => rfl
  | cons c r => simp [List.dropWhile_cons, h c (by simp)]

theorem pyStrip_eq_self {l : List Char} (h : ∀ c ∈ l, isPySpace c = false) :
    pyStrip l = l := by
  unfold pyStrip
  rw [dropWhile_eq_self_of h, dropWhile_eq_self_of (fun c hc => h c (by
    simpa using hc)), List.reverse_reverse]

theorem readSign_cons_of {c : Char} (r : List Char) (h1 : c ≠ '-') (h2 : c ≠ '+') :
    readSign (c :: r) = (false, c :: r) := by
  simp [readSign, h1, h2]

theorem intToChars_eq (m : Int) :
    intToChars m = (if m < 0 then ['-'] else []) ++ natToDigits m.natAbs := by
  unfold intToChars
  by_cases h : m < 0 <;> simp [h]
/-- Characters of a rendered integer: a minus sign or decimal digits. -/
theorem intToChars_mem {m : Int} {c : Char} (h : c ∈ intToChars m) :
    c = '-' ∨ c ∈ digitChars := by
  rw [intToChars_eq] at h
  rcases List.mem_append.mp h with h | h
  · left
    split at h <;> simp_all
  · exact Or.inr ((natToDigits_spec m.natAbs).2.2 c h)

/-- The decimal-literal parser on a rendered mantissa, `e`, and a rendered
exponent, both signs given as explicit booleans. -/
theorem pyFloatCore_digits (b : Bool) {dm : List Char} (hmne : dm ≠ [])
    (hmmem : ∀ c ∈ dm, c ∈ digitChars) (eb : Bool) {de : List Char} (hene : de ≠ [])
    (hemem : ∀ c ∈ de, c ∈ digitChars) :
    pyFloatCore b (dm ++ 'e' :: ((if eb = true then ['-'] else []) ++ de)) =
      some (.fin (if b = true then -(digitsToNat dm : Int) else (digitsToNat dm : Int))
                 (if eb = true then -(digitsToNat de : Int) else (digitsToNat de : Int))) := by
  have hspan1 : spanDigits (dm ++ 'e' :: ((if eb = true then ['-'] else []) ++ de)) =
      (dm, 'e' :: ((if eb = true then ['-'] else []) ++ de)) :=
    spanDigits_append (fun c hc => digit_pyIsDigit (hmmem c hc))
      (fun c hc => by simp at hc; rw [← hc]; decide)
  have hspan3 : spanDigits (de ++ []) = (de, []) :=
    spanDigits_append (fun c hc => digit_pyIsDigit (hemem c hc)) (fun c hc => by simp at hc)
  rw [List.append_nil] at hspan3
  have hsign : readSign ((if eb = true then ['-'] else []) ++ de) = (eb, de) := by
    cases eb with
    | true => simp [readSign]
    | false =>
      simp only [Bool.false_eq_true, if_false, List.nil_append]
      cases de with
      | nil => exact absurd rfl hene
      | cons d dt =>
        exact readSign_cons_of dt (digit_ne_dash (hemem d (by simp)))
          (digit_ne_plus (hemem d (by simp)))
  have hfr : fracSplit ('e' :: ((if eb = true then ['-'] else []) ++ de)) =
      ([], 'e' :: ((if eb = true then ['-'] else []) ++ de)) := by
    simp [fracSplit]
  simp only [pyFloatCore, hspan1, hfr]
  rw [if_neg (by simp [hmne])]
  rw [if_pos (show (True ∨ 'e' = 'E') from Or.inl trivial)]
  simp only [hsign, hspan3]
  rw [if_neg (by simp [hene])]
  simp only [mkFin, List.append_nil, List.length_nil, Nat.cast_zero, sub_zero]

/-- Rendered float tokens parse back to the value they render. -/
theorem pyFloat_floatRepr (v : PyFloat) : pyFloat? (floatRepr v) = some v := by
  cases v with
  | nan => decide
  | inf b => cases b <;> decide
  | fin m e =>
    obtain ⟨hmval, hmne, hmmem⟩ := natToDigits_spec m.natAbs
    obtain ⟨heval, hene, hemem⟩ := natToDigits_spec e.natAbs
    have hebool : (if e < 0 then ['-'] else []) =
        (if decide (e < 0) = true then ['-'] else []) := by
      by_cases he : e < 0 <;> simp [he]
    have hshape : floatRepr (.fin m e) =
        (if m < 0 then ['-'] else []) ++
          (natToDigits m.natAbs ++ 'e' ::
            ((if decide (e < 0) = true then ['-'] else []) ++ natToDigits e.natAbs)) := by
      simp only [floatRepr, intToChars_eq, ← hebool, List.append_assoc, List.cons_append,
        List.nil_append]
    have hnospace : ∀ c ∈ floatRepr (PyFloat.fin m e), isPySpace c = false := by
      intro c hc
      simp only [floatRepr, List.mem_append, List.mem_cons] at hc
      rcases hc with hc | hc | hc
      · rcases intToChars_mem hc with h | h
        · rw [h]; decide
        · exact digit_not_space h
      · rw [hc]; decide
      · rcases intToChars_mem hc with h | h
        · rw [h]; decide
        · exact digit_not_space h
    obtain ⟨d, dt, hdm⟩ : ∃ d dt, natToDigits m.natAbs = d :: dt := by
      cases hnd : natToDigits m.natAbs with
      | nil => exact absurd hnd hmne
      | cons d dt => exact ⟨d, dt, rfl⟩
    have hdmem : d ∈ digitChars := hmmem d (by rw [hdm]; simp)
    have hlowne : ∀ w : List Char, w.head? = some 'i' ∨ w.head? = some 'n' →
        (natToDigits m.natAbs ++ 'e' ::
          ((if decide (e < 0) = true then ['-'] else []) ++
            natToDigits e.natAbs)).map Char.toLower ≠ w := by
      intro w hw heq
      rw [hdm] at heq
      simp only [List.cons_append, List.map_cons] at heq
      rcases hw with hw | hw
      · rw [← heq] at hw
        simp only [List.head?_cons, Option.some.injEq] at hw
        rw [digit_toLower hdmem] at hw
        exact digit_ne_i hdmem hw
      · rw [← heq] at hw
        simp only [List.head?_cons, Option.some.injEq] at hw
        rw [digit_toLower hdmem] at hw
        exact digit_ne_n hdmem hw
    have hz : readSign ((if m < 0 then ['-'] else []) ++
          (natToDigits m.natAbs ++ 'e' ::
            ((if decide (e < 0) = true then ['-'] else []) ++ natToDigits e.natAbs))) =
        (decide (m < 0), natToDigits m.natAbs ++ 'e' ::
            ((if decide (e < 0) = true then ['-'] else []) ++ natToDigits e.natAbs)) := by
      by_cases hm : m < 0
      · simp [hm, readSign]
      · simp only [hm, if_false, decide_eq_false hm, List.nil_append]
        rw [hdm]
        exact readSign_cons_of _ (digit_ne_dash hdmem) (digit_ne_plus hdmem)
    have h1 : (if decide (m < 0) = true then
          -(digitsToNat (natToDigits m.natAbs) : Int)
        else (digitsToNat (natToDigits m.natAbs) : Int)) = m := by
      rw [hmval]
      by_cases hm : m < 0
      · rw [if_pos (by simp [hm]), Int.ofNat_natAbs_of_nonpos (le_of_lt hm), neg_neg]
      · rw [if_neg (by simp [hm])]
        exact Int.natAbs_of_nonneg (le_of_not_lt hm)
    have h2 : (if decide (e < 0) = true then
          -(digitsToNat (natToDigits e.natAbs) : Int)
        else (digitsToNat (natToDigits e.natAbs) : Int)) = e := by
      rw [heval]
      by_cases he : e < 0
      · rw [if_pos (by simp [he]), Int.ofNat_natAbs_of_nonpos (le_of_lt he), neg_neg]
      · rw [if_neg (by simp [he])]
        exact Int.natAbs_of_nonneg (le_of_not_lt he)
    calc pyFloat? (floatRepr (.fin m e))
        = pyFloatCore (decide (m < 0))
            (natToDigits m.natAbs ++ 'e' ::
              ((if decide (e < 0) = true then ['-'] else []) ++ natToDigits e.natAbs)) := by
          simp only [pyFloat?]
          rw [pyStrip_eq_self hnospace, hshape, hz]
          rw [if_neg (by
            push_neg
            exact ⟨hlowne "inf".toList (Or.inl rfl), hlowne "infinity".toList (Or.inl rfl)⟩)]
          rw [if_neg (hlowne "nan".toList (Or.inr rfl))]
      _ = some (.fin m e) := by
          rw [pyFloatCore_digits (decide (m < 0)) hmne hmmem (decide (e < 0)) hene hemem]
          rw [h1, h2]

/-! ## Lemmas: the persisted table round trip -/

theorem rowToRecord_recToRow (r : Record) : rowToRecord (recToRow r) = some r := by
  cases r
  simp [recToRow, rowToRecord, pyFloat_floatRepr]

theorem mapOption_recToRow (recs : List Record) :
    mapOption rowToRecord (recs.map recToRow) = some recs := by
  induction recs with
  | nil => rfl
  | cons r rest ih => simp [mapOption, rowToRecord_recToRow, ih]

/-! ## Lemmas: substring containment -/

theorem matchesAt_append {pat s : List Char} (t : List Char)
    (h : matchesAt pat s = true) : matchesAt pat (s ++ t) = true := by
  induction pat generalizing s with
  | nil => rfl
  | cons p ps ih =>
    cases s with
    | nil => simp [matchesAt] at h
    | cons c cs =>
      simp only [matchesAt, Bool.and_eq_true, beq_iff_eq] at h
      simp only [List.cons_append, matchesAt, Bool.and_eq_true, beq_iff_eq]
      exact ⟨h.1, ih h.2⟩

theorem containsSub_nil (l : List Char) : containsSub [] l = true := by
  induction l with
  | nil => rfl
  | cons c r ih => simp [containsSub, matchesAt]

theorem containsSub_append_right {pat s : List Char} (t : List Char)
    (h : containsSub pat s = true) : containsSub pat (s ++ t) = true := by
  induction s with
  | nil =>
    cases pat with
    | nil => exact containsSub_nil t
    | cons p ps => simp [containsSub, matchesAt] at h
  | cons c cs ih =>
    simp only [containsSub, Bool.or_eq_true] at h
    simp only [List.cons_append, containsSub, Bool.or_eq_true]
    rcases h with h | h
    · exact Or.inl (by simpa using matchesAt_append t h)
    · exact Or.inr (ih h)

theorem errNotFound_contains (p : List Char) :
    containsSub "not found".toList (errNotFound p) = true :=
  containsSub_append_right p (by decide)

/-! ## Lemmas: line processing -/

theorem rowFromParts_short {sys : List Char} {parts : List (List Char)}
    (h : parts.length < 6) : rowFromParts sys parts = none := by
  rcases parts with _ | ⟨a, _ | ⟨b, _ | ⟨c, _ | ⟨d, _ | ⟨e, _ | ⟨f, rest⟩⟩⟩⟩⟩⟩
  · rfl
  · rfl
  · rfl
  · rfl
  · rfl
  · rfl
  · simp only [List.length_cons] at h
    omega

theorem rowFromParts_system {sys : List Char} {parts : List (List Char)} {r : Record}
    (h : rowFromParts sys parts = some r) : r.system = sys := by
  unfold rowFromParts at h
  split at h
  · split at h
    · cases h
      rfl
    · exact absurd h (by simp)
  · exact absurd h (by simp)

theorem processLine_system {sys line : List Char} {r : Record}
    (h : processLine sys line = some r) : r.system = sys := by
  simp only [processLine] at h
  split at h
  · exact absurd h (by simp)
  · split at h
    · exact absurd h (by simp)
    · exact rowFromParts_system h

/-! ## Example inputs used by the claims -/

/-- A rule line of exactly 60 dashes. -/
def rule60 : List Char := List.replicate 60 '-'

def exName : List Char := "sys1".toList

def exBase : List Char := "work".toList

/-- The conventional input path `work/sys1/FINAL_RESULTS_MMPBSA.dat`. -/
def exInPath : List Char :=
  exBase ++ "/".toList ++ exName ++ "/".toList ++ defaultResultsName ++ ".dat".toList

/-! ## Claim C1 -/

/-- C1: for a table-body line that reaches tokenisation (nonempty after
trimming, not beginning with a dash), a record is produced exactly when the
line splits into at least six whitespace tokens whose tokens 1 to 5 all
parse as floats; with fewer than six tokens the line is excluded, a parse
failure among tokens 1 to 5 silently excludes it, and with more than six
tokens the record is built from token 0 and tokens 1 to 5 only, surplus
tokens ignored. -/
theorem spec_c1_token_policy (sys line : List Char)
    (h1 : pyStrip line ≠ []) (h2 : (pyStrip line).head? ≠ some '-') :
    ((splitParts (pyStrip line)).length < 6 → processLine sys line = none) ∧
    (∀ c v1 v2 v3 v4 v5 rest,
      splitParts (pyStrip line) = c :: v1 :: v2 :: v3 :: v4 :: v5 :: rest →
      ((pyFloat? v1 = none ∨ pyFloat? v2 = none ∨ pyFloat? v3 = none ∨
        pyFloat? v4 = none ∨ pyFloat? v5 = none) → processLine sys line = none) ∧
      (∀ a1 a2 a3 a4 a5, pyFloat? v1 = some a1 → pyFloat? v2 = some a2 →
        pyFloat? v3 = some a3 → pyFloat? v4 = some a4 → pyFloat? v5 = some a5 →
        processLine sys line = some ⟨sys, c, a1, a2, a3, a4, a5⟩)) := by
  have hp : processLine sys line = rowFromParts sys (splitParts (pyStrip line)) := by
    simp only [processLine]
    rw [if_neg h1, if_neg h2]
  constructor
  · intro hlen
    rw [hp]
    exact rowFromParts_short hlen
  · intro c v1 v2 v3 v4 v5 rest hs
    rw [hp, hs]
    constructor
    · intro hfail
      simp only [rowFromParts]
      rcases hfail with h | h | h | h | h <;> rw [h] <;> simp
    · intro a1 a2 a3 a4 a5 e1 e2 e3 e4 e5
      simp only [rowFromParts, e1, e2, e3, e4, e5]

theorem spec_c1_witness :
    processLine "Complex".toList "GAS 1.0 2.0 3.0 4.0 5.0 junk".toList =
      some ⟨"Complex".toList, "GAS".toList, .fin 10 (-1), .fin 20 (-1), .fin 30 (-1),
            .fin 40 (-1), .fin 50 (-1)⟩ :=
  ((spec_c1_token_policy "Complex".toList "GAS 1.0 2.0 3.0 4.0 5.0 junk".toList
      (by decide) (by decide)).2
    "GAS".toList "1.0".toList "2.0".toList "3.0".toList "4.0".toList "5.0".toList
    ["junk".toList] (by decide)).2
    (.fin 10 (-1)) (.fin 20 (-1)) (.fin 30 (-1)) (.fin 40 (-1)) (.fin 50 (-1))
    (by decide) (by decide) (by decide) (by decide) (by decide)

/-! ## Claim C3 -/

def c3Line : List Char := "-X 1 2 3 4 5".toList

def c3Text : List Char := "Complex\n".toList ++ rule60 ++ "\n".toList ++ c3Line

/-- C3 counterexample: the line `-X 1 2 3 4 5` is nonempty after trimming,
is not made solely of dashes, has exactly six tokens whose tokens 1 to 5
all parse as floats, yet the parser produces no record from a section whose
body consists of it: skipping is by leading dash, not by all-dashes. -/
theorem spec_c3_counterexample :
    parseReport c3Text = [] ∧
    pyStrip c3Line ≠ [] ∧
    ¬(∀ c ∈ pyStrip c3Line, c = '-') ∧
    (splitParts (pyStrip c3Line)).length = 6 ∧
    ((splitParts (pyStrip c3Line)).drop 1).all (fun p => (pyFloat? p).isSome) = true ∧
    processLine "Complex".toList c3Line = none := by
  exact ⟨by rfl, by decide, by decide, by decide, by decide, by rfl⟩

/-- C3 amended: before any token-count or numeric test the parser skips
exactly the lines that are empty after trimming and the lines whose first
character after trimming is a dash (not only all-dash rule lines); every
other line proceeds to tokenisation. -/
theorem spec_c3_skip_policy (sys line : List Char) :
    processLine sys line =
      if pyStrip line = [] ∨ (pyStrip line).head? = some '-' then none
      else rowFromParts sys (splitParts (pyStrip line)) := by
  simp only [processLine]
  by_cases hA : pyStrip line = []
  · rw [if_pos hA, if_pos (Or.inl hA)]
  · rw [if_neg hA]
    by_cases hB : (pyStrip line).head? = some '-'
    · rw [if_pos hB, if_pos (Or.inr hB)]
    · rw [if_neg hB, if_neg (by simp [hA, hB])]

/-! ## Claim C4 -/

/-- C4: on a path with no file, the converter returns (does not raise) the
filesystem unchanged together with an outcome string containing the
substring `not found`, while `load_pickle` on the same path propagates the
not-found error. -/
theorem spec_c4_missing_input (fs : FS) (dir file : List Char)
    (h : fsLookup (dir ++ "/".toList ++ file) fs = none) :
    (mmpbsa_to_csv fs (dir ++ "/".toList ++ file)).1 = fs ∧
    (mmpbsa_to_csv fs (dir ++ "/".toList ++ file)).2 =
      errNotFound (dir ++ "/".toList ++ file) ∧
    containsSub "not found".toList (mmpbsa_to_csv fs (dir ++ "/".toList ++ file)).2 = true ∧
    load_pickle fs dir file = .error .fileNotFound := by
  have hm : mmpbsa_to_csv fs (dir ++ "/".toList ++ file) =
      (fs, errNotFound (dir ++ "/".toList ++ file)) := by
    unfold mmpbsa_to_csv
    rw [h]
  refine ⟨by rw [hm], by rw [hm], ?_, ?_⟩
  · rw [hm]
    exact errNotFound_contains _
  · unfold load_pickle
    rw [h]

theorem spec_c4_witness :
    (mmpbsa_to_csv [] ("d".toList ++ "/".toList ++ "f".toList)).1 = [] ∧
    (mmpbsa_to_csv [] ("d".toList ++ "/".toList ++ "f".toList)).2 =
      errNotFound ("d".toList ++ "/".toList ++ "f".toList) ∧
    containsSub "not found".toList
      (mmpbsa_to_csv [] ("d".toList ++ "/".toList ++ "f".toList)).2 = true ∧
    load_pickle [] "d".toList "f".toList = .error .fileNotFound :=
  spec_c4_missing_input [] "d".toList "f".toList rfl

/-! ## Claim C5 -/

/-- C5: for every report text, converting it and reading the persisted
table back yields exactly the record sequence the parser produces on the
text: same count, same System and Energy_Component values in order, and
the same five numeric values. -/
theorem spec_c5_round_trip (text : List Char) :
    load_bfedat ((mmpbsa_to_csv [(exInPath, .text text)] exInPath).1)
      exName exBase defaultResultsName = some (parseReport text) := by
  have h : load_bfedat ((mmpbsa_to_csv [(exInPath, .text text)] exInPath).1)
      exName exBase defaultResultsName =
      mapOption rowToRecord ((parseReport text).map recToRow) := rfl
  rw [h, mapOption_recToRow]

/-! ## Claim C9 -/

/-- C9: `convert_bfedat` performs the conversion for its composed path but
discards the outcome string of the converter, returning unit, so a failure
of the underlying conversion is invisible to its caller. -/
theorem spec_c9_outcome_discarded (fs : FS) (bfefname path fname : List Char) :
    (convert_bfedat fs bfefname path fname).2 = () ∧
    (convert_bfedat fs bfefname path fname).1 =
      (mmpbsa_to_csv fs
        (path ++ "/".toList ++ bfefname ++ "/".toList ++ fname ++ ".dat".toList)).1 :=
  ⟨rfl, rfl⟩

/-! ## Claim C10 -/

def c10Line : List Char := "TOTAL nan inf 1e5 -3.5 2.0".toList

/-- C10: the numeric test is Python float conversion, so tokens such as
`nan`, `inf` and `1e5` qualify and the line yields a record with those
(possibly non-finite) values rather than being skipped. -/
theorem spec_c10_nonfinite_tokens :
    pyFloat? "nan".toList = some .nan ∧
    pyFloat? "inf".toList = some (.inf false) ∧
    pyFloat? "1e5".toList = some (.fin 1 5) ∧
    processLine "Delta".toList c10Line =
      some ⟨"Delta".toList, "TOTAL".toList, .nan, .inf false, .fin 1 5,
            .fin (-35) (-1), .fin 20 (-1)⟩ :=
  ⟨by decide, by decide, by decide, by decide⟩

/-! ## Claim C2 -/

def c2CexText : List Char :=
  "delta\n".toList ++ rule60 ++ "\nGAS 1.0 2.0 3.0 4.0 5.0".toList

def c2PosText : List Char :=
  "ProteinA-ProteinB Delta\n".toList ++ rule60 ++ "\nGAS 1.0 2.0 3.0 4.0 5.0".toList

/-- C2 counterexample: a section labelled `delta` (fully lowercased) is
matched case-insensitively, but its record keeps System `delta` rather than
the claimed normalised `Delta`: the containment test for `Delta` is
case-sensitive. -/
theorem spec_c2_counterexample :
    (parseReport c2CexText).map (fun r => r.system) = ["delta".toList] ∧
    "delta".toList ≠ "Delta".toList :=
  ⟨by rfl, by decide⟩

/-- C2 amended: every parsed record takes its System value from its section
label: labels containing the substring `Delta` with exactly that casing
normalise to `Delta`, all other labels (including lowercased `delta`
variants) keep the text before the first colon, trimmed; label matching
itself is case-insensitive, so `ProteinA-ProteinB Delta` still yields
System `Delta`. -/
theorem spec_c2_label_normalisation :
    (∀ text : List Char, parseReport text =
      ((findMatches text).map (fun m => sectionRecords m.1 m.2)).flatten) ∧
    (∀ g2 g3 : List Char, ∀ r ∈ sectionRecords g2 g3,
      (containsSub "Delta".toList (pyStrip g2) = true → r.system = "Delta".toList) ∧
      (containsSub "Delta".toList (pyStrip g2) = false →
        r.system = pyStrip (beforeColon (pyStrip g2)))) ∧
    (parseReport c2PosText).map (fun r => r.system) = ["Delta".toList] := by
  refine ⟨fun text => rfl, ?_, by rfl⟩
  intro g2 g3 r hr
  have hsys : r.system = systemName (pyStrip g2) := by
    simp only [sectionRecords] at hr
    rw [List.mem_filterMap] at hr
    obtain ⟨line, _, hline⟩ := hr
    exact processLine_system hline
  constructor
  · intro hc
    rw [hsys]
    unfold systemName
    rw [if_pos hc]
  · intro hc
    rw [hsys]
    unfold systemName
    rw [if_neg (by
      intro hcon
      rw [hcon] at hc
      simp at hc)]

def c2WitnessRec : Record :=
  ⟨"Complex".toList, "GAS".toList, .fin 10 (-1), .fin 20 (-1), .fin 30 (-1),
   .fin 40 (-1), .fin 50 (-1)⟩

theorem spec_c2_witness :
    (containsSub "Delta".toList (pyStrip "Complex".toList) = true →
      c2WitnessRec.system = "Delta".toList) ∧
    (containsSub "Delta".toList (pyStrip "Complex".toList) = false →
      c2WitnessRec.system = pyStrip (beforeColon (pyStrip "Complex".toList))) :=
  spec_c2_label_normalisation.2.1 "Complex".toList
    "\nGAS 1.0 2.0 3.0 4.0 5.0".toList c2WitnessRec (by decide)

/-! ## Claim C8 -/

/-- C8: on a report in which the section pattern finds nothing, the parser
returns the empty record sequence, and conversion still succeeds, writing a
file holding exactly the seven-column header row and no data rows. -/
theorem spec_c8_no_sections (text : List Char) (h : findMatches text = []) :
    parseReport text = [] ∧
    (mmpbsa_to_csv [(exInPath, .text text)] exInPath).2 =
      "Successfully parsed data and saved to CSV file: ".toList ++
        ((splitExt exInPath).1 ++ ".csv".toList) ∧
    fsLookup ((splitExt exInPath).1 ++ ".csv".toList)
      (mmpbsa_to_csv [(exInPath, .text text)] exInPath).1 =
      some (.table [headerNames]) := by
  have hp : parseReport text = [] := by
    unfold parseReport
    rw [h]
    rfl
  have hl : fsLookup exInPath [(exInPath, FileData.text text)] = some (.text text) := by rfl
  have hm : mmpbsa_to_csv [(exInPath, .text text)] exInPath =
      (fsWrite [(exInPath, .text text)] ((splitExt exInPath).1 ++ ".csv".toList)
         (.table (csvRows (parseReport text))),
       "Successfully parsed data and saved to CSV file: ".toList ++
         ((splitExt exInPath).1 ++ ".csv".toList)) := by
    unfold mmpbsa_to_csv
    rw [hl]
  refine ⟨hp, by rw [hm], ?_⟩
  rw [hm, hp]
  rfl

theorem spec_c8_witness :
    parseReport "no sections in this report".toList = [] ∧
    (mmpbsa_to_csv [(exInPath, .text "no sections in this report".toList)] exInPath).2 =
      "Successfully parsed data and saved to CSV file: ".toList ++
        ((splitExt exInPath).1 ++ ".csv".toList) ∧
    fsLookup ((splitExt exInPath).1 ++ ".csv".toList)
      (mmpbsa_to_csv [(exInPath, .text "no sections in this report".toList)] exInPath).1 =
      some (.table [headerNames]) :=
  spec_c8_no_sections "no sections in this report".toList (by rfl)

/-! ## Lemmas: the aggregator pipeline -/

theorem mapME_forall₂ {α β ε : Type} {f : α → Except ε β} :
    ∀ {l : List α} {r : List β}, mapME f l = .ok r →
      List.Forall₂ (fun a b => f a = .ok b) l r := by
  intro l
  induction l with
  | nil =>
    intro r h
    simp only [mapME, Except.ok.injEq] at h
    rw [← h]
    exact List.Forall₂.nil
  | cons x xs ih =>
    intro r h
    simp only [mapME] at h
    cases hfx : f x with
    | error e => rw [hfx] at h; simp at h
    | ok y =>
      rw [hfx] at h
      cases hrec : mapME f xs with
      | error e => rw [hrec] at h; simp at h
      | ok ys =>
        rw [hrec] at h
        simp only [Except.ok.injEq] at h
        rw [← h]
        exact List.Forall₂.cons hfx (ih hrec)

theorem forall₂_mem_right {α β : Type} {R : α → β → Prop} :
    ∀ {l : List α} {r : List β}, List.Forall₂ R l r → ∀ b ∈ r, ∃ a ∈ l, R a b := by
  intro l r h
  induction h with
  | nil =>
    intro b hb
    simp at hb
  | @cons a b as bs hR hrest ih =>
    intro x hx
    rcases List.mem_cons.mp hx with rfl | hx2
    · exact ⟨a, by simp, hR⟩
    · obtain ⟨a2, ha2, hRa⟩ := ih x hx2
      exact ⟨a2, by simp [ha2], hRa⟩

theorem findCol_mem {α β : Type} [DecidableEq α] {t : PdTable α β} {l : α}
    {c : α × List (Option β)} (h : findCol t l = .ok c) : c ∈ t.cols := by
  unfold findCol at h
  cases hf : t.cols.find? (fun p => decide (p.1 = l)) with
  | none => rw [hf] at h; exact absurd h (by simp)
  | some c0 =>
    rw [hf] at h
    simp only [Except.ok.injEq] at h
    rw [← h]
    exact List.mem_of_find?_eq_some hf

theorem locSelect_list_spec {α β : Type} [DecidableEq α] {t : PdTable α β} {ls : List α}
    {cs : List (α × List (Option β))} (h : locSelect t (.list ls) = .ok cs) :
    cs.length = ls.length ∧ ∀ c ∈ cs, c ∈ t.cols := by
  have hf : List.Forall₂ (fun l c => findCol t l = .ok c) ls cs := mapME_forall₂ h
  constructor
  · exact (List.Forall₂.length_eq hf).symm
  · intro c hc
    obtain ⟨l2, _, hfc⟩ := forall₂_mem_right hf c hc
    exact findCol_mem hfc

theorem locSelect_scalar_len {α β : Type} [DecidableEq α] {t : PdTable α β} {l : α}
    {cs : List (α × List (Option β))} (h : locSelect t (.scalar l) = .ok cs) :
    cs.length = 1 := by
  simp only [locSelect] at h
  cases hf : findCol t l with
  | error e => rw [hf] at h; simp at h
  | ok c =>
    rw [hf] at h
    simp only [Except.ok.injEq] at h
    rw [← h]
    rfl

theorem tableMaxLen_append {α β : Type} (a b : List (α × List (Option β))) :
    tableMaxLen (a ++ b) = max (tableMaxLen a) (tableMaxLen b) := by
  induction a with
  | nil => simp [tableMaxLen]
  | cons p r ih =>
    simp only [List.cons_append, tableMaxLen, List.foldr_cons] at ih ⊢
    rw [ih, Nat.max_assoc]

theorem length_le_tableMaxLen {α β : Type} {cols : List (α × List (Option β))}
    {c : α × List (Option β)} (h : c ∈ cols) : c.2.length ≤ tableMaxLen cols := by
  induction cols with
  | nil => simp at h
  | cons p r ih =>
    simp only [tableMaxLen, List.foldr_cons]
    rcases List.mem_cons.mp h with rfl | h2
    · exact Nat.le_max_left _ _
    · exact le_trans (ih h2) (Nat.le_max_right _ _)

theorem tableMaxLen_const {α β : Type} {cols : List (α × List (Option β))} {n : Nat}
    (hne : cols ≠ []) (h : ∀ c ∈ cols, c.2.length = n) : tableMaxLen cols = n := by
  induction cols with
  | nil => exact absurd rfl hne
  | cons p r ih =>
    simp only [tableMaxLen, List.foldr_cons]
    rw [h p (by simp)]
    rcases r with _ | ⟨q, rr⟩
    · simp [tableMaxLen]
    · have hr := ih (by simp) (fun c hc => h c (by simp [hc]))
      simp only [tableMaxLen] at hr
      rw [hr]
      exact Nat.max_self n

theorem flatten_length_uniform {γ : Type} {sels : List (List γ)} {k : Nat}
    (h : ∀ s ∈ sels, s.length = k) : sels.flatten.length = sels.length * k := by
  induction sels with
  | nil => simp
  | cons s r ih =>
    simp only [List.flatten_cons, List.length_append, List.length_cons]
    rw [h s (by simp), ih (fun s2 hs => h s2 (by simp [hs]))]
    ring

theorem tableMaxLen_flatten_eq_maxRows {α β : Type} [DecidableEq α] {ls : List α}
    (hls : ls ≠ []) {subs : List (PdTable α β)}
    {sels : List (List (α × List (Option β)))}
    (hf : List.Forall₂ (fun t s => locSelect t (.list ls) = .ok s) subs sels)
    (hrect : ∀ t ∈ subs, ∀ c ∈ t.cols, c.2.length = tableMaxLen t.cols) :
    tableMaxLen sels.flatten = maxRows subs := by
  revert hrect
  induction hf with
  | nil =>
    intro _
    rfl
  | @cons t s ts ss hR hrest ih =>
    intro hrect
    have hspec := locSelect_list_spec hR
    have hsne : s ≠ [] := by
      intro hhs
      apply hls
      have h0 := hspec.1
      rw [hhs] at h0
      simp only [List.length_nil] at h0
      exact List.length_eq_zero.mp h0.symm
    have hsml : tableMaxLen s = tableMaxLen t.cols :=
      tableMaxLen_const hsne (fun c hc => hrect t (by simp) c (hspec.2 c hc))
    have hrec := ih (fun t2 ht2 => hrect t2 (by simp [ht2]))
    simp only [List.flatten_cons, tableMaxLen_append, maxRows, List.foldr_cons]
    rw [hsml]
    simp only [maxRows] at hrec
    rw [hrec]

/-! ## Claim C6 -/

/-- C6: for well-formed (rectangular) bundles all holding the key and all
selected column labels, the aggregate has (number of bundles) times
(number of selected labels) columns, every column is padded to the largest
input row count, and its leading columns are the first bundle's selected
columns in their original row order. -/
theorem spec_c6_aggregate_shape {α β : Type} [DecidableEq α] (key : String)
    (bundles : List (Bundle α β)) (ls : List α) (subs : List (PdTable α β))
    (sels : List (List (α × List (Option β))))
    (hsubs : load_analysis key bundles = .ok subs)
    (hsels : mapME (fun t => locSelect t (.list ls)) subs = .ok sels)
    (hls : ls ≠ [])
    (hrect : ∀ t ∈ subs, ∀ c ∈ t.cols, c.2.length = tableMaxLen t.cols) :
    load_ana key bundles (.list ls) = .ok (pdConcat sels) ∧
    (pdConcat sels).cols.length = bundles.length * ls.length ∧
    (∀ c ∈ (pdConcat sels).cols, c.2.length = maxRows subs) ∧
    (∀ s0 srest, sels = s0 :: srest →
      (pdConcat sels).cols.take ls.length =
        s0.map (fun p => (p.1, padCells (maxRows subs) p.2))) := by
  have hforall : List.Forall₂ (fun t s => locSelect t (.list ls) = .ok s) subs sels :=
    mapME_forall₂ hsels
  have hlen : ∀ s ∈ sels, s.length = ls.length := by
    intro s hs
    obtain ⟨t, _, hR⟩ := forall₂_mem_right hforall s hs
    exact (locSelect_list_spec hR).1
  have hflatlen : sels.flatten.length = sels.length * ls.length := flatten_length_uniform hlen
  have hM : tableMaxLen sels.flatten = maxRows subs :=
    tableMaxLen_flatten_eq_maxRows hls hforall hrect
  refine ⟨by simp only [load_ana, hsubs, hsels], ?_, ?_, ?_⟩
  · simp only [pdConcat, List.length_map]
    rw [hflatlen]
    congr 1
    rw [← List.Forall₂.length_eq hforall, ← List.Forall₂.length_eq (mapME_forall₂ hsubs)]
  · intro c hc
    simp only [pdConcat, List.mem_map] at hc
    obtain ⟨p, hp, rfl⟩ := hc
    simp only [padCells, List.length_append, List.length_replicate]
    have hle : p.2.length ≤ tableMaxLen sels.flatten := length_le_tableMaxLen hp
    rw [hM] at hle
    rw [hM]
    omega
  · intro s0 srest hsel
    subst hsel
    simp only [List.flatten_cons] at hM
    simp only [pdConcat, List.flatten_cons, List.map_append]
    rw [hM]
    have hs0len : (s0.map (fun p => (p.1, padCells (maxRows subs) p.2))).length =
        ls.length := by
      simp [hlen s0 (by simp)]
    rw [← hs0len, List.take_left]

def c6Bundle1 : Bundle Nat Nat :=
  [("k", ⟨[(1, [some 10, some 20]), (2, [some 30, some 40])]⟩)]

def c6Bundle2 : Bundle Nat Nat :=
  [("k", ⟨[(1, [some 50]), (2, [some 60])]⟩)]

def c6Subs : List (PdTable Nat Nat) :=
  [⟨[(1, [some 10, some 20]), (2, [some 30, some 40])]⟩, ⟨[(1, [some 50]), (2, [some 60])]⟩]

def c6Sels : List (List (Nat × List (Option Nat))) :=
  [[(1, [some 10, some 20]), (2, [some 30, some 40])], [(1, [some 50]), (2, [some 60])]]

theorem spec_c6_witness :
    load_ana "k" [c6Bundle1, c6Bundle2] (.list [1, 2]) = .ok (pdConcat c6Sels) ∧
    (pdConcat c6Sels).cols.length = [c6Bundle1, c6Bundle2].length * [1, 2].length ∧
    (∀ c ∈ (pdConcat c6Sels).cols, c.2.length = maxRows c6Subs) ∧
    (∀ s0 srest, c6Sels = s0 :: srest →
      (pdConcat c6Sels).cols.take [1, 2].length =
        s0.map (fun p => (p.1, padCells (maxRows c6Subs) p.2))) :=
  spec_c6_aggregate_shape "k" [c6Bundle1, c6Bundle2] [1, 2] c6Subs c6Sels
    rfl rfl (by decide) (by decide)

/-! ## Claim C7 -/

theorem load_ana_scalar_cols {α β : Type} [DecidableEq α] {key : String} {l : α}
    {dfp : List (Bundle α β)} {T : PdTable α β}
    (h : load_ana key dfp (.scalar l) = .ok T) : T.cols.length = dfp.length := by
  unfold load_ana at h
  cases hsubs : load_analysis key dfp with
  | error e => rw [hsubs] at h; simp at h
  | ok subs =>
    rw [hsubs] at h
    simp only [] at h
    cases hsels : mapME (fun r => locSelect r (ColKeys.scalar l)) subs with
    | error e => rw [hsels] at h; simp at h
    | ok sels =>
      rw [hsels] at h
      simp only [Except.ok.injEq] at h
      rw [← h]
      have hforall := mapME_forall₂ hsels
      have hlen1 : ∀ s ∈ sels, s.length = 1 := by
        intro s hs
        obtain ⟨t, _, hR⟩ := forall₂_mem_right hforall s hs
        exact locSelect_scalar_len hR
      simp only [pdConcat, List.length_map]
      rw [flatten_length_uniform hlen1, Nat.mul_one]
      rw [← List.Forall₂.length_eq hforall, ← List.Forall₂.length_eq (mapME_forall₂ hsubs)]

def c7Bundle : Bundle Int Int :=
  [("rmsd", ⟨[(0, [some 1]), (1, [some 2]), (2, [some 3]), (3, [some 4])]⟩)]

/-- C7 counterexample: with one bundle whose rmsd sub-table has four
columns, the default wrapper selects the single column labelled 2, so the
result has one column, not the two columns per bundle the claim states. -/
theorem spec_c7_counterexample :
    load_rmsd [c7Bundle] = .ok ⟨[((2 : Int), [some (3 : Int)])]⟩ ∧
    ([((2 : Int), [some (3 : Int)])] : List (Int × List (Option Int))).length = 1 ∧
    (1 : Nat) ≠ [c7Bundle].length * 2 :=
  ⟨by rfl, by rfl, by decide⟩

/-- C7 amended: the four wrappers are pure presets of `load_ana`, fixing
the key to rmsd, rg, sasa or hbond and defaulting the column argument to
the scalar label 2, which selects one column (the column labelled 2) per
bundle; they add no logic of their own. -/
theorem spec_c7_wrapper_presets :
    (∀ (β : Type) (dfp : List (Bundle Int β)), load_rmsd dfp = load_ana "rmsd" dfp (.scalar 2)) ∧
    (∀ (β : Type) (dfp : List (Bundle Int β)), load_rg dfp = load_ana "rg" dfp (.scalar 2)) ∧
    (∀ (β : Type) (dfp : List (Bundle Int β)), load_sasa dfp = load_ana "sasa" dfp (.scalar 2)) ∧
    (∀ (β : Type) (dfp : List (Bundle Int β)), load_hbond dfp = load_ana "hbond" dfp (.scalar 2)) ∧
    (∀ (α β : Type) [DecidableEq α], ∀ (key : String) (l : α)
      (dfp : List (Bundle α β)) (T : PdTable α β),
      load_ana key dfp (.scalar l) = .ok T → T.cols.length = dfp.length) :=
  ⟨fun _ _ => rfl, fun _ _ => rfl, fun _ _ => rfl, fun _ _ => rfl,
   fun _ _ _ _ _ _ _ h => load_ana_scalar_cols h⟩

theorem spec_c7_witness :
    load_rmsd [c7Bundle] = load_ana "rmsd" [c7Bundle] (.scalar 2) ∧
    (PdTable.mk [((2 : Int), [some (3 : Int)])] : PdTable Int Int).cols.length =
      [c7Bundle].length :=
  ⟨spec_c7_wrapper_presets.1 Int [c7Bundle],
   spec_c7_wrapper_presets.2.2.2.2 Int Int "rmsd" 2 [c7Bundle] _ (by rfl)⟩
